import Mathlib

/-!
Verification of the send-campaign engine of the `whatapp-automation`
repository (`src/whatsapp-handler.ts`), shallowly embedded in Lean 4.

Cells of a loaded spreadsheet row (`ExcelRow` in `src/src/types.ts`) hold
`string | number | Date | undefined` values.  A `Date` cell is modelled by
the display text its `toLocaleDateString()` would produce; numbers are
modelled as integers (the fractional and NaN corners of JS numbers play no
role in any claim).  A missing key (`row[col] === undefined`) is modelled
by `Option.none` on lookup.

The external WhatsApp transport (`this.client.sendMessage`) is modelled by
an oracle `Nat → Option String` giving, per row index, `none` for a
successful send and `some e` for a send that fails with error message `e`.
The `this.client` field being initialized or `null` is the Boolean
`clientInit`.  Awaited suspensions (the transport call and the inter-row
`setTimeout` pause) and progress-callback invocations are recorded in an
explicit event trace.
-/

/-- A spreadsheet cell value: text, a number, or a date-time value
(carrying its locale display text). -/
inductive CellValue where
  | text (s : String)
  | num (n : Int)
  | date (display : String)
deriving DecidableEq, Repr

/-- A row: insertion-ordered mapping from column name to cell value
(JS object key order). -/
abbrev Row := List (String × CellValue)

/-- `row[k]` in JS: the value at key `k`, `none` when the key is absent. -/
def lookupRow (row : Row) (k : String) : Option CellValue :=
  match row with
  | [] => none
  | (k', v) :: rest => if k' = k then some v else lookupRow rest k

/-- `v.toString()` for non-date values and `v.toLocaleDateString()` for
dates, as used by `formatMessage` and the phone display paths. -/
def cellToString : CellValue → String
  | CellValue.text s => s
  | CellValue.num n => toString n
  | CellValue.date d => d

/-- The characters of a cell's display text. -/
def displayChars (v : CellValue) : List Char := (cellToString v).data

/-- JS truthiness of a cell value (`!phone` is the negation):
`0` and `""` are falsy, every other modelled value is truthy. -/
def truthyV : CellValue → Bool
  | CellValue.text s => !(s = "")
  | CellValue.num n => !(n = 0)
  | CellValue.date _ => true

/-- `v instanceof Date`. -/
def isDateV : CellValue → Bool
  | CellValue.date _ => true
  | _ => false

/-- Row eligibility, the negation of the guard
`if (!phone || phone instanceof Date)` at `whatsapp-handler.ts:317`
with `phone = row[phoneColumn]`. -/
def rowEligible (pc : String) (row : Row) : Bool :=
  match lookupRow row pc with
  | none => false
  | some pv => truthyV pv && !isDateV pv

/-- Boolean prefix test on character lists (pattern, then subject). -/
def isPref : List Char → List Char → Bool
  | [], _ => true
  | _ :: _, [] => false
  | a :: as, b :: bs => a = b && isPref as bs

/-- Does `pat` occur as a contiguous substring of the subject? -/
def occursIn (pat : List Char) : List Char → Bool
  | [] => isPref pat []
  | c :: s' => isPref pat (c :: s') || occursIn pat s'

/-- Fuel-indexed worker for `replaceAll`: each step consumes at least one
character of the subject, so fuel equal to the subject's length is always
enough. -/
def replaceAllF : Nat → List Char → List Char → List Char → List Char
  | 0, s, _, _ => s
  | fuel + 1, s, pat, v =>
    if pat ≠ [] ∧ isPref pat s then
      v ++ replaceAllF fuel (s.drop pat.length) pat v
    else
      match s with
      | [] => []
      | c :: s' => c :: replaceAllF fuel s' pat v

/-- `s.split(pat).join(v)` of JS, i.e. leftmost-first non-overlapping
replacement of every occurrence of `pat` in `s` by `v`.  (For the empty
pattern, which the program never passes, this returns `s` unchanged.) -/
def replaceAll (s pat v : List Char) : List Char :=
  replaceAllF s.length s pat v

/-- `formatMessage` (`whatsapp-handler.ts:254-275`): for each key of the
row, in insertion order, replace every occurrence of `{key}` in the
accumulated message by the cell's display text. -/
def formatMessage (template : String) (rowData : Row) : String :=
  ⟨rowData.foldl
    (fun msg kv => replaceAll msg ('{' :: kv.1.data ++ ['}']) (displayChars kv.2))
    template.data⟩

/-- `formatPhoneNumber` (`whatsapp-handler.ts:277-280`):
`phone.toString().replace(/\D/g, '') + '@c.us'`. -/
def formatPhoneNumber (phone : CellValue) : String :=
  ⟨((cellToString phone).data.filter Char.isDigit) ++ "@c.us".data⟩

/-- Lifecycle status carried by a progress notification. -/
inductive ProgressStatus where
  | sending
  | success
  | failed
deriving DecidableEq, Repr

/-- Terminal status of one row outcome. -/
inductive DetailStatus where
  | success
  | failed
deriving DecidableEq, Repr

/-- `ProgressData` of `src/src/types.ts`. -/
structure ProgressData where
  current : Nat
  total : Nat
  phone : String
  status : ProgressStatus
  error : Option String
deriving DecidableEq, Repr

/-- One entry of `results.details` in `SendMessagesResults`. -/
structure Detail where
  index : Nat
  phone : String
  status : DetailStatus
  error : Option String
deriving DecidableEq, Repr

/-- `SendMessagesResults` (`whatsapp-handler.ts:13-23`). -/
structure SendMessagesResults where
  total : Nat
  success : Nat
  failed : Nat
  details : List Detail
deriving DecidableEq, Repr

/-- Result of one `sendMessage` call (`MessageResult` in types.ts). -/
structure MessageResult where
  phone : String
  status : DetailStatus
  error : Option String
deriving DecidableEq, Repr

/-- Observable events of one campaign run: a progress-callback
invocation, a `formatMessage` rendering, an actual transport call
(`this.client.sendMessage(chatId, message)`), or the inter-row
`setTimeout` suspension (in seconds). -/
inductive Ev where
  | progress (p : ProgressData)
  | render (message : String)
  | send (chatId : String) (message : String)
  | delay (seconds : Nat)
deriving DecidableEq, Repr

/-- Is this event the inter-row delay suspension? -/
def isDelayEv : Ev → Bool
  | Ev.delay _ => true
  | _ => false

/-- Is this event a transport call? -/
def isSendEv : Ev → Bool
  | Ev.send _ _ => true
  | _ => false

/-- Project a progress notification out of an event. -/
def progressOf : Ev → Option ProgressData
  | Ev.progress p => some p
  | _ => none

/-- `sendMessage` (`whatsapp-handler.ts:282-297`).  The body throws
`'WhatsApp client not initialized'` when `this.client` is null, but the
surrounding `try/catch` converts that throw — and any transport send
failure — into a returned `failed` result, so the function always
returns.  The transport call itself happens only when the client exists;
its outcome for this row is `outcome` (`none` = resolved, `some e` =
rejected with message `e`). -/
def sendMessage (clientInit : Bool) (outcome : Option String)
    (phone : CellValue) (message : String) : MessageResult × List Ev :=
  if clientInit then
    match outcome with
    | none =>
      (⟨cellToString phone, DetailStatus.success, none⟩,
       [Ev.send (formatPhoneNumber phone) message])
    | some e =>
      (⟨cellToString phone, DetailStatus.failed, some e⟩,
       [Ev.send (formatPhoneNumber phone) message])
  else
    (⟨cellToString phone, DetailStatus.failed,
      some "WhatsApp client not initialized"⟩, [])

/-- The body of one iteration of the `sendMessages` loop
(`whatsapp-handler.ts:313-387`), up to but excluding the delay: returns
the pushed detail, whether `results.success` was incremented, and the
events (progress callbacks, rendering, transport call) of this row. -/
def stepRow (clientInit : Bool) (oracle : Nat → Option String)
    (pc template : String) (total i : Nat) (row : Row) :
    Detail × Bool × List Ev :=
  match lookupRow row pc with
  | none =>
    (⟨i, "N/A", DetailStatus.failed, some "No phone number"⟩, false,
     [Ev.progress ⟨i + 1, total, "N/A", ProgressStatus.failed,
       some "No phone number"⟩])
  | some pv =>
    if truthyV pv && !isDateV pv then
      let message := formatMessage template row
      let res := sendMessage clientInit (oracle i) pv message
      match res.1.status with
      | DetailStatus.success =>
        (⟨i, cellToString pv, DetailStatus.success, none⟩, true,
         Ev.render message ::
           Ev.progress ⟨i + 1, total, cellToString pv,
             ProgressStatus.sending, none⟩ ::
           (res.2 ++
            [Ev.progress ⟨i + 1, total, cellToString pv,
               ProgressStatus.success, none⟩]))
      | DetailStatus.failed =>
        (⟨i, cellToString pv, DetailStatus.failed, res.1.error⟩, false,
         Ev.render message ::
           Ev.progress ⟨i + 1, total, cellToString pv,
             ProgressStatus.sending, none⟩ ::
           (res.2 ++
            [Ev.progress ⟨i + 1, total, cellToString pv,
               ProgressStatus.failed, res.1.error⟩]))
    else
      (⟨i, "N/A", DetailStatus.failed, some "No phone number"⟩, false,
       [Ev.progress ⟨i + 1, total, "N/A", ProgressStatus.failed,
         some "No phone number"⟩])

/-- Accumulated output of the loop tail starting at some index. -/
structure LoopOut where
  succ : Nat
  fail : Nat
  details : List Detail
  events : List Ev
deriving DecidableEq, Repr

/-- The `for` loop of `sendMessages` from index `i` over the remaining
rows.  The `continue` of the ineligible branch jumps straight to the next
iteration, so the inter-row delay at lines 389-391 runs only when the row
was eligible and `i < data.length - 1`. -/
def sendLoop (clientInit : Bool) (oracle : Nat → Option String)
    (pc template : String) (delayS total : Nat) :
    Nat → List Row → LoopOut
  | _, [] => ⟨0, 0, [], []⟩
  | i, row :: rest =>
    let st := stepRow clientInit oracle pc template total i row
    let delayEvs : List Ev :=
      if rowEligible pc row ∧ i < total - 1 then [Ev.delay delayS] else []
    let out := sendLoop clientInit oracle pc template delayS total (i + 1) rest
    ⟨(if st.2.1 then out.succ + 1 else out.succ),
     (if st.2.1 then out.fail else out.fail + 1),
     st.1 :: out.details,
     st.2.2 ++ delayEvs ++ out.events⟩

/-- `sendMessages` (`whatsapp-handler.ts:299-395`): the returned
`SendMessagesResults`. -/
def sendMessages (clientInit : Bool) (oracle : Nat → Option String)
    (data : List Row) (pc template : String) (delayS : Nat) :
    SendMessagesResults :=
  let out := sendLoop clientInit oracle pc template delayS data.length 0 data
  ⟨data.length, out.succ, out.fail, out.details⟩

/-- The full event trace of one `sendMessages` run. -/
def sendMessagesTrace (clientInit : Bool) (oracle : Nat → Option String)
    (data : List Row) (pc template : String) (delayS : Nat) : List Ev :=
  (sendLoop clientInit oracle pc template delayS data.length 0 data).events

example :
    formatPhoneNumber (CellValue.text "+1 (234) 567-8901")
      = "12345678901@c.us" := by decide

example :
    formatMessage "Hi {Name}, bal {Balance}"
      [("Name", CellValue.text "Ann"), ("Balance", CellValue.num 50)]
      = "Hi Ann, bal 50" := by decide

example :
    formatMessage "{X}-{X}" [("X", CellValue.text "a")] = "a-a" := by decide

example :
    formatMessage "Hi {Missing}" [("Name", CellValue.text "Ann")]
      = "Hi {Missing}" := by decide

example :
    (sendMessages true (fun _ => none)
      [[("P", CellValue.text "12")], [("P", CellValue.text "")]] "P" "m" 5) =
    ⟨2, 1, 1,
      [⟨0, "12", DetailStatus.success, none⟩,
       ⟨1, "N/A", DetailStatus.failed, some "No phone number"⟩]⟩ := by decide

/-! ## Basic lemmas about the replacement primitive -/

theorem isPref_append_self (p r : List Char) : isPref p (p ++ r) = true := by
  induction p with
  | nil => simp [isPref]
  | cons a as ih => simp [isPref, ih]

theorem replaceAllF_nil (f : Nat) (pat v : List Char) :
    replaceAllF f [] pat v = [] := by
  cases f with
  | zero => rfl
  | succ f =>
    cases pat with
    | nil => simp [replaceAllF, isPref]
    | cons a as => simp [replaceAllF, isPref]

theorem replaceAllF_succ_pos {pat : List Char} (f : Nat) (s v : List Char)
    (h : pat ≠ [] ∧ isPref pat s) :
    replaceAllF (f + 1) s pat v = v ++ replaceAllF f (s.drop pat.length) pat v := by
  simp only [replaceAllF]
  rw [if_pos h]

theorem replaceAllF_succ_neg {pat : List Char} (f : Nat) (c : Char)
    (s v : List Char) (h : ¬(pat ≠ [] ∧ isPref pat (c :: s))) :
    replaceAllF (f + 1) (c :: s) pat v = c :: replaceAllF f s pat v := by
  simp only [replaceAllF]
  rw [if_neg h]

theorem replaceAllF_succ_cons_neg {pat : List Char} (f : Nat) (c : Char)
    (s v : List Char) (h : isPref pat (c :: s) = false) :
    replaceAllF (f + 1) (c :: s) pat v = c :: replaceAllF f s pat v := by
  apply replaceAllF_succ_neg
  rintro ⟨-, hp⟩
  rw [h] at hp
  exact absurd hp (by simp)

theorem replaceAllF_congr :
    ∀ (f1 : Nat) (s pat v : List Char) (f2 : Nat),
      s.length ≤ f1 → s.length ≤ f2 →
      replaceAllF f1 s pat v = replaceAllF f2 s pat v := by
  intro f1
  induction f1 with
  | zero =>
    intro s pat v f2 h1 _
    have hs : s = [] := List.eq_nil_of_length_eq_zero (Nat.le_zero.mp h1)
    subst hs
    rw [replaceAllF_nil, replaceAllF_nil]
  | succ f ih =>
    intro s pat v f2 h1 h2
    cases s with
    | nil => rw [replaceAllF_nil, replaceAllF_nil]
    | cons c s' =>
      cases f2 with
      | zero => simp at h2
      | succ f2' =>
        by_cases hc : pat ≠ [] ∧ isPref pat (c :: s')
        · rw [replaceAllF_succ_pos f _ _ hc, replaceAllF_succ_pos f2' _ _ hc]
          congr 1
          have hplen : 0 < pat.length := List.length_pos.mpr hc.1
          have hd : ((c :: s').drop pat.length).length ≤ s'.length := by
            simp only [List.length_drop, List.length_cons]
            omega
          exact ih _ pat v f2' (le_trans hd (Nat.lt_succ_iff.mp h1))
            (le_trans hd (Nat.lt_succ_iff.mp h2))
        · rw [replaceAllF_succ_neg f c s' v hc, replaceAllF_succ_neg f2' c s' v hc]
          congr 1
          exact ih s' pat v f2' (by simpa using h1) (by simpa using h2)

theorem replaceAll_nil (pat v : List Char) : replaceAll [] pat v = [] := rfl

theorem replaceAll_pref {pat : List Char} (rest v : List Char) (h : pat ≠ []) :
    replaceAll (pat ++ rest) pat v = v ++ replaceAll rest pat v := by
  have hpos : 0 < (pat ++ rest).length := by
    rcases List.exists_cons_of_ne_nil h with ⟨a, as, rfl⟩
    simp
  rw [replaceAll, show (pat ++ rest).length = ((pat ++ rest).length - 1) + 1 from
    (Nat.succ_pred_eq_of_pos hpos).symm,
    replaceAllF_succ_pos _ _ _ ⟨h, isPref_append_self pat rest⟩, List.drop_left]
  rw [replaceAll]
  congr 1
  apply replaceAllF_congr
  · have := List.length_append pat rest
    have hplen : 0 < pat.length := List.length_pos.mpr h
    omega
  · exact le_refl _

theorem replaceAll_cons_neg {pat : List Char} (c : Char) (s v : List Char)
    (h : isPref pat (c :: s) = false) :
    replaceAll (c :: s) pat v = c :: replaceAll s pat v := by
  show replaceAllF (s.length + 1) (c :: s) pat v = c :: replaceAllF s.length s pat v
  exact replaceAllF_succ_cons_neg s.length c s v h

/-! ## Closed forms for the campaign loop -/

theorem sendLoop_details (cI : Bool) (o : Nat → Option String)
    (pc t : String) (dS total : Nat) :
    ∀ (i : Nat) (rows : List Row),
      (sendLoop cI o pc t dS total i rows).details
        = (List.enumFrom i rows).map (fun p => (stepRow cI o pc t total p.1 p.2).1) := by
  intro i rows
  induction rows generalizing i with
  | nil => rfl
  | cons row rest ih => simp [sendLoop, List.enumFrom, ih]

theorem sendLoop_events (cI : Bool) (o : Nat → Option String)
    (pc t : String) (dS total : Nat) :
    ∀ (i : Nat) (rows : List Row),
      (sendLoop cI o pc t dS total i rows).events
        = (List.enumFrom i rows).flatMap (fun p =>
            (stepRow cI o pc t total p.1 p.2).2.2 ++
            (if rowEligible pc p.2 ∧ p.1 < total - 1 then [Ev.delay dS] else [])) := by
  intro i rows
  induction rows generalizing i with
  | nil => rfl
  | cons row rest ih => simp [sendLoop, List.enumFrom, ih]

theorem sendLoop_succ (cI : Bool) (o : Nat → Option String)
    (pc t : String) (dS total : Nat) :
    ∀ (i : Nat) (rows : List Row),
      (sendLoop cI o pc t dS total i rows).succ
        = (List.enumFrom i rows).countP (fun p => (stepRow cI o pc t total p.1 p.2).2.1) := by
  intro i rows
  induction rows generalizing i with
  | nil => rfl
  | cons row rest ih =>
    cases hok : (stepRow cI o pc t total i row).2.1 with
    | false => simp [sendLoop, List.enumFrom, List.countP_cons, ih, hok]
    | true => simp [sendLoop, List.enumFrom, List.countP_cons, ih, hok]

theorem sendLoop_fail (cI : Bool) (o : Nat → Option String)
    (pc t : String) (dS total : Nat) :
    ∀ (i : Nat) (rows : List Row),
      (sendLoop cI o pc t dS total i rows).fail
        = (List.enumFrom i rows).countP
            (fun p => !(stepRow cI o pc t total p.1 p.2).2.1) := by
  intro i rows
  induction rows generalizing i with
  | nil => rfl
  | cons row rest ih =>
    cases hok : (stepRow cI o pc t total i row).2.1 with
    | false => simp [sendLoop, List.enumFrom, List.countP_cons, ih, hok]
    | true => simp [sendLoop, List.enumFrom, List.countP_cons, ih, hok]

theorem countP_add_countP_not {α : Type} (p : α → Bool) (l : List α) :
    l.countP p + l.countP (fun a => !(p a)) = l.length := by
  induction l with
  | nil => rfl
  | cons a l ih =>
    cases h : p a <;> simp [List.countP_cons, h] <;> omega

theorem stepRow_index (cI : Bool) (o : Nat → Option String)
    (pc t : String) (total i : Nat) (row : Row) :
    (stepRow cI o pc t total i row).1.index = i := by
  unfold stepRow
  cases lookupRow row pc with
  | none => rfl
  | some pv =>
    cases htv : (truthyV pv && !isDateV pv) with
    | false => simp [htv]
    | true =>
      simp only [htv, if_pos]
      unfold sendMessage
      cases cI <;> cases o i <;> simp

theorem stepRow_ok (cI : Bool) (o : Nat → Option String)
    (pc t : String) (total i : Nat) (row : Row) :
    (stepRow cI o pc t total i row).2.1
      = (rowEligible pc row && (cI && (o i).isNone)) := by
  unfold stepRow rowEligible
  cases lookupRow row pc with
  | none => rfl
  | some pv =>
    cases htv : (truthyV pv && !isDateV pv) with
    | false => simp [htv]
    | true =>
      simp only [htv, if_pos]
      unfold sendMessage
      cases cI <;> cases o i <;> simp

/-! ## Claim theorems: counting invariant and identifier normalization -/

/-- **C1**: for every campaign run of `sendMessages` over any finite row
sequence — whatever the transport outcomes and however many rows are
ineligible — the returned result satisfies
`success + failed = total = length details = length input rows`, and the
details carry exactly one entry per input row (indices `0..n-1`). -/
theorem sendMessages_count_invariant (cI : Bool) (o : Nat → Option String)
    (data : List Row) (pc tmpl : String) (dS : Nat) :
    (sendMessages cI o data pc tmpl dS).success
        + (sendMessages cI o data pc tmpl dS).failed
      = (sendMessages cI o data pc tmpl dS).total
    ∧ (sendMessages cI o data pc tmpl dS).total = data.length
    ∧ (sendMessages cI o data pc tmpl dS).details.length = data.length
    ∧ (sendMessages cI o data pc tmpl dS).details.map Detail.index
        = List.range data.length := by
  refine ⟨?_, rfl, ?_, ?_⟩
  · show (sendLoop cI o pc tmpl dS data.length 0 data).succ
        + (sendLoop cI o pc tmpl dS data.length 0 data).fail = data.length
    rw [sendLoop_succ, sendLoop_fail]
    exact (countP_add_countP_not
      (fun p => (stepRow cI o pc tmpl data.length p.1 p.2).2.1)
      (List.enumFrom 0 data)).trans (List.enumFrom_length)
  · show (sendLoop cI o pc tmpl dS data.length 0 data).details.length = data.length
    rw [sendLoop_details]
    simp [List.enumFrom_length]
  · show (sendLoop cI o pc tmpl dS data.length 0 data).details.map Detail.index
        = List.range data.length
    rw [sendLoop_details, List.map_map]
    have h1 : (Detail.index ∘ fun p : Nat × Row =>
        (stepRow cI o pc tmpl data.length p.1 p.2).1) = Prod.fst := by
      funext p
      exact stepRow_index cI o pc tmpl data.length p.1 p.2
    rw [h1, List.enumFrom_map_fst, ← List.range_eq_range']

/-- **C6**: `formatPhoneNumber` returns exactly the decimal digits of the
raw value's string form followed by the fixed suffix `@c.us`; a value
with no digits yields exactly `@c.us`, and `"+1 (234) 567-8901"` yields
`"12345678901@c.us"`. -/
theorem formatPhoneNumber_spec :
    (∀ v : CellValue, (formatPhoneNumber v).data
        = (cellToString v).data.filter Char.isDigit ++ "@c.us".data)
    ∧ formatPhoneNumber (CellValue.text "+1 (234) 567-8901")
        = "12345678901@c.us"
    ∧ formatPhoneNumber (CellValue.text "abc - no digits!") = "@c.us"
    ∧ formatPhoneNumber (CellValue.num 420) = "420@c.us" := by
  exact ⟨fun v => rfl, by decide, by decide, by decide⟩

/-! ## Counterexamples to claims C2, C3, C4, C5 as stated -/

/-- **C2** counterexample: in a 2-row campaign with configured delay 5
whose first row is ineligible (`"No phone number"`), the loop's
`continue` skips the delay code entirely, so the run performs **zero**
delay suspensions — the claim requires exactly one (between row 0 and
row 1, "including when row i was ineligible"). -/
theorem delay_skipped_after_ineligible_row :
    (sendMessagesTrace true (fun _ => none)
        [[("Phone", CellValue.text "")], [("Phone", CellValue.text "123")]]
        "Phone" "hi" 5).filter isDelayEv = [] := by decide

/-- **C3** counterexample: with the client not initialized and one
eligible row, `sendMessages` does **not** reject: the throw inside
`sendMessage` is caught by its own `try/catch`, so the call completes and
returns an ordinary Campaign Result recording the row as failed. -/
theorem uninitialized_client_returns_result :
    sendMessages false (fun _ => none) [[("Phone", CellValue.text "123")]]
        "Phone" "hi" 5
      = ⟨1, 0, 1, [⟨0, "123", DetailStatus.failed,
          some "WhatsApp client not initialized"⟩]⟩ := by decide

/-- **C4** counterexample: the template `"{M}{M}"` contains the
placeholder `{M}` whose column name `M` is **not** a key of the row
whose single key is `M`, `}`, `{`, `M` (written with hex escapes below),
yet the output `"x"` does not retain the literal
`{M}` — sequential split/join replacement of the key `M}{M` consumed
both occurrences, refuting "leaves every placeholder whose column name is
not a key of the row untouched". -/
theorem formatMessage_nonkey_placeholder_consumed :
    formatMessage "{M}{M}" [("M\x7d\x7bM", CellValue.text "x")] = "x"
    ∧ lookupRow [("M\x7d\x7bM", CellValue.text "x")] "M" = none
    ∧ occursIn "{M}".data "{M}{M}".data = true
    ∧ occursIn "{M}".data "x".data = false := by
  exact ⟨by decide, by decide, by decide, by decide⟩

/-- **C5** counterexample: with cell values containing placeholder text,
the output of `formatMessage` depends on the row's insertion order, and
the replacement text inserted for `{A}` **is** re-scanned by the later
substitution pass for key `B`. -/
theorem formatMessage_order_dependent :
    formatMessage "{A}" [("A", CellValue.text "{B}"), ("B", CellValue.text "x")]
        = "x"
    ∧ formatMessage "{A}"
        ([("A", CellValue.text "{B}"), ("B", CellValue.text "x")].reverse)
        = "{B}" := by
  exact ⟨by decide, by decide⟩

/-! ## Case analysis of one loop iteration -/

theorem stepRow_ineligible (cI : Bool) (o : Nat → Option String)
    (pc t : String) (total i : Nat) (row : Row)
    (h : rowEligible pc row = false) :
    stepRow cI o pc t total i row
      = (⟨i, "N/A", DetailStatus.failed, some "No phone number"⟩, false,
         [Ev.progress ⟨i + 1, total, "N/A", ProgressStatus.failed,
           some "No phone number"⟩]) := by
  unfold stepRow
  unfold rowEligible at h
  cases hl : lookupRow row pc with
  | none => rfl
  | some pv =>
    rw [hl] at h
    have h' : (truthyV pv && !isDateV pv) = false := h
    simp [h']

theorem stepRow_eligible_success (o : Nat → Option String)
    (pc t : String) (total i : Nat) (row : Row) (pv : CellValue)
    (hl : lookupRow row pc = some pv)
    (ht : (truthyV pv && !isDateV pv) = true)
    (ho : o i = none) :
    stepRow true o pc t total i row
      = (⟨i, cellToString pv, DetailStatus.success, none⟩, true,
         [Ev.render (formatMessage t row),
          Ev.progress ⟨i + 1, total, cellToString pv,
            ProgressStatus.sending, none⟩,
          Ev.send (formatPhoneNumber pv) (formatMessage t row),
          Ev.progress ⟨i + 1, total, cellToString pv,
            ProgressStatus.success, none⟩]) := by
  unfold stepRow
  rw [hl]
  simp [ht, sendMessage, ho]

theorem stepRow_eligible_sendfail (o : Nat → Option String)
    (pc t : String) (total i : Nat) (row : Row) (pv : CellValue)
    (e : String)
    (hl : lookupRow row pc = some pv)
    (ht : (truthyV pv && !isDateV pv) = true)
    (ho : o i = some e) :
    stepRow true o pc t total i row
      = (⟨i, cellToString pv, DetailStatus.failed, some e⟩, false,
         [Ev.render (formatMessage t row),
          Ev.progress ⟨i + 1, total, cellToString pv,
            ProgressStatus.sending, none⟩,
          Ev.send (formatPhoneNumber pv) (formatMessage t row),
          Ev.progress ⟨i + 1, total, cellToString pv,
            ProgressStatus.failed, some e⟩]) := by
  unfold stepRow
  rw [hl]
  simp [ht, sendMessage, ho]

theorem stepRow_eligible_noclient (o : Nat → Option String)
    (pc t : String) (total i : Nat) (row : Row) (pv : CellValue)
    (hl : lookupRow row pc = some pv)
    (ht : (truthyV pv && !isDateV pv) = true) :
    stepRow false o pc t total i row
      = (⟨i, cellToString pv, DetailStatus.failed,
          some "WhatsApp client not initialized"⟩, false,
         [Ev.render (formatMessage t row),
          Ev.progress ⟨i + 1, total, cellToString pv,
            ProgressStatus.sending, none⟩,
          Ev.progress ⟨i + 1, total, cellToString pv,
            ProgressStatus.failed,
            some "WhatsApp client not initialized"⟩]) := by
  unfold stepRow
  rw [hl]
  simp [ht, sendMessage]

/-! ## Delay policy -/

theorem stepRow_no_delay (cI : Bool) (o : Nat → Option String)
    (pc t : String) (total i : Nat) (row : Row) :
    ((stepRow cI o pc t total i row).2.2).filter isDelayEv = [] := by
  cases he : rowEligible pc row with
  | false => rw [stepRow_ineligible cI o pc t total i row he]; rfl
  | true =>
    unfold rowEligible at he
    cases hl : lookupRow row pc with
    | none => rw [hl] at he; exact absurd he (by simp)
    | some pv =>
      rw [hl] at he
      have ht : (truthyV pv && !isDateV pv) = true := he
      cases cI with
      | false => rw [stepRow_eligible_noclient o pc t total i row pv hl ht]; rfl
      | true =>
        cases ho : o i with
        | none =>
          rw [stepRow_eligible_success o pc t total i row pv hl ht ho]; rfl
        | some e =>
          rw [stepRow_eligible_sendfail o pc t total i row pv e hl ht ho]; rfl

theorem filter_flatMap_comm {α β : Type} (l : List α) (f : α → List β)
    (p : β → Bool) :
    (l.flatMap f).filter p = l.flatMap (fun a => (f a).filter p) := by
  induction l with
  | nil => rfl
  | cons a l ih => simp [ih]

theorem flatMap_enumFrom_delay (pc : String) (x : Ev) (m : Nat) :
    ∀ (rows : List Row) (i : Nat),
      (List.enumFrom i rows).flatMap
          (fun p => if rowEligible pc p.2 ∧ p.1 < m then [x] else [])
        = List.replicate ((rows.take (m - i)).countP (rowEligible pc)) x := by
  intro rows
  induction rows with
  | nil => intro i; simp
  | cons r rest ih =>
    intro i
    by_cases hi : i < m
    · have hmi : m - i = (m - (i + 1)) + 1 := by omega
      rw [hmi]
      show (if rowEligible pc r ∧ i < m then [x] else []) ++
          (List.enumFrom (i + 1) rest).flatMap
            (fun p => if rowEligible pc p.2 ∧ p.1 < m then [x] else [])
        = List.replicate
            (((r :: rest).take ((m - (i + 1)) + 1)).countP (rowEligible pc)) x
      rw [ih (i + 1)]
      cases he : rowEligible pc r with
      | true =>
        simp [he, hi, List.countP_cons, List.replicate_succ]
      | false =>
        simp [he, List.countP_cons]
    · have hmi : m - i = 0 := by omega
      have hmi1 : m - (i + 1) = 0 := by omega
      show (if rowEligible pc r ∧ i < m then [x] else []) ++
          (List.enumFrom (i + 1) rest).flatMap
            (fun p => if rowEligible pc p.2 ∧ p.1 < m then [x] else [])
        = List.replicate
            (((r :: rest).take (m - i)).countP (rowEligible pc)) x
      rw [ih (i + 1)]
      simp [hi, hmi, hmi1]

/-- **C2 (amended)**: one campaign's event trace is the concatenation, in
row order, of each row's events followed by a single delay of the
configured `dS` seconds **iff that row was eligible and not last**: the
`continue` taken for an ineligible row skips the delay, so the delay
suspensions of a run are exactly one per eligible row at an index
`< n - 1` (none after ineligible rows, none after the final row). -/
theorem sendMessages_delay_policy (cI : Bool) (o : Nat → Option String)
    (data : List Row) (pc tmpl : String) (dS : Nat) :
    sendMessagesTrace cI o data pc tmpl dS
      = (List.enumFrom 0 data).flatMap (fun p =>
          (stepRow cI o pc tmpl data.length p.1 p.2).2.2 ++
          (if rowEligible pc p.2 ∧ p.1 < data.length - 1
           then [Ev.delay dS] else []))
    ∧ (sendMessagesTrace cI o data pc tmpl dS).filter isDelayEv
      = List.replicate
          ((data.take (data.length - 1)).countP (rowEligible pc))
          (Ev.delay dS) := by
  have htr := sendLoop_events cI o pc tmpl dS data.length 0 data
  refine ⟨htr, ?_⟩
  rw [show sendMessagesTrace cI o data pc tmpl dS
      = (List.enumFrom 0 data).flatMap (fun p =>
          (stepRow cI o pc tmpl data.length p.1 p.2).2.2 ++
          (if rowEligible pc p.2 ∧ p.1 < data.length - 1
           then [Ev.delay dS] else [])) from htr]
  rw [filter_flatMap_comm]
  have hstep : ∀ p : Nat × Row,
      (((stepRow cI o pc tmpl data.length p.1 p.2).2.2 ++
        (if rowEligible pc p.2 ∧ p.1 < data.length - 1
         then [Ev.delay dS] else []))).filter isDelayEv
      = (if rowEligible pc p.2 ∧ p.1 < data.length - 1
         then [Ev.delay dS] else []) := by
    intro p
    rw [List.filter_append, stepRow_no_delay]
    by_cases hc : rowEligible pc p.2 ∧ p.1 < data.length - 1
    · simp [hc, isDelayEv]
    · simp [hc]
  simp only [hstep]
  have := flatMap_enumFrom_delay pc (Ev.delay dS) (data.length - 1) data 0
  simpa using this

/-! ## Behavior with an uninitialized client -/

theorem stepRow_noclient_props (o : Nat → Option String)
    (pc t : String) (total i : Nat) (row : Row) :
    (stepRow false o pc t total i row).1.status = DetailStatus.failed
    ∧ ((stepRow false o pc t total i row).2.2).filter isSendEv = []
    ∧ ((stepRow false o pc t total i row).1.error = some "No phone number"
       ∨ (stepRow false o pc t total i row).1.error
           = some "WhatsApp client not initialized") := by
  cases he : rowEligible pc row with
  | false =>
    rw [stepRow_ineligible false o pc t total i row he]
    exact ⟨rfl, rfl, Or.inl rfl⟩
  | true =>
    unfold rowEligible at he
    cases hl : lookupRow row pc with
    | none => rw [hl] at he; exact absurd he (by simp)
    | some pv =>
      rw [hl] at he
      rw [stepRow_eligible_noclient o pc t total i row pv hl he]
      exact ⟨rfl, rfl, Or.inr rfl⟩

/-- **C3 (amended)**: if the client is not initialized when `sendMessages`
runs, the call does **not** throw: `sendMessage`'s own `try/catch` turns
the `'WhatsApp client not initialized'` throw into per-row failed
outcomes.  The run completes normally and returns a Campaign Result in
which no row succeeded, every row outcome is `failed` carrying either
`'No phone number'` (ineligible row) or
`'WhatsApp client not initialized'` (eligible row), and no transport
call is ever made. -/
theorem sendMessages_uninitialized_client (o : Nat → Option String)
    (data : List Row) (pc tmpl : String) (dS : Nat) :
    (sendMessages false o data pc tmpl dS).success = 0
    ∧ ((sendMessages false o data pc tmpl dS).details.all
        (fun d => d.status == DetailStatus.failed)) = true
    ∧ ((sendMessages false o data pc tmpl dS).details.all
        (fun d => d.error == some "No phone number"
          || d.error == some "WhatsApp client not initialized")) = true
    ∧ (sendMessagesTrace false o data pc tmpl dS).countP isSendEv = 0 := by
  refine ⟨?_, ?_, ?_, ?_⟩
  · show (sendLoop false o pc tmpl dS data.length 0 data).succ = 0
    rw [sendLoop_succ]
    simp only [stepRow_ok]
    simp
  · show ((sendLoop false o pc tmpl dS data.length 0 data).details.all
        (fun d => d.status == DetailStatus.failed)) = true
    rw [sendLoop_details]
    rw [List.all_eq_true]
    intro d hd
    rcases List.mem_map.mp hd with ⟨p, -, rfl⟩
    simp [(stepRow_noclient_props o pc tmpl data.length p.1 p.2).1]
  · show ((sendLoop false o pc tmpl dS data.length 0 data).details.all
        (fun d => d.error == some "No phone number"
          || d.error == some "WhatsApp client not initialized")) = true
    rw [sendLoop_details]
    rw [List.all_eq_true]
    intro d hd
    rcases List.mem_map.mp hd with ⟨p, -, rfl⟩
    rcases (stepRow_noclient_props o pc tmpl data.length p.1 p.2).2.2 with h | h
    · simp [h]
    · simp [h]
  · show ((sendLoop false o pc tmpl dS data.length 0 data).events).countP
        isSendEv = 0
    rw [sendLoop_events, List.countP_eq_length_filter, filter_flatMap_comm]
    have hstep : ∀ p : Nat × Row,
        (((stepRow false o pc tmpl data.length p.1 p.2).2.2 ++
          (if rowEligible pc p.2 ∧ p.1 < data.length - 1
           then [Ev.delay dS] else []))).filter isSendEv = ([] : List Ev) := by
      intro p
      rw [List.filter_append, (stepRow_noclient_props o pc tmpl
        data.length p.1 p.2).2.1]
      by_cases hc : rowEligible pc p.2 ∧ p.1 < data.length - 1
      · simp [hc, isSendEv]
      · simp [hc]
    simp only [hstep]
    have hnil : ∀ (l : List (Nat × Row)),
        l.flatMap (fun _ => ([] : List Ev)) = [] := by
      intro l
      induction l with
      | nil => rfl
      | cons a l ih => simp [ih]
    rw [hnil]
    rfl

/-! ## Ineligible rows -/

/-- **C9**: a row whose destination cell is absent, empty text, or a
date-time value yields the fixed outcome
`⟨i, "N/A", failed, "No phone number"⟩`, emits exactly the corresponding
failed progress notification and nothing else — in particular no
transport call (`Ev.send`) and no template rendering (`Ev.render`) — and
that outcome sits at position `i` of the returned details. -/
theorem ineligible_row_outcome (cI : Bool) (o : Nat → Option String)
    (pc tmpl : String) (total i : Nat) (row : Row)
    (h : lookupRow row pc = none
      ∨ lookupRow row pc = some (CellValue.text "")
      ∨ ∃ d, lookupRow row pc = some (CellValue.date d)) :
    stepRow cI o pc tmpl total i row
      = (⟨i, "N/A", DetailStatus.failed, some "No phone number"⟩, false,
         [Ev.progress ⟨i + 1, total, "N/A", ProgressStatus.failed,
           some "No phone number"⟩])
    ∧ ∀ (data : List Row) (dS : Nat), data[i]? = some row →
        (sendMessages cI o data pc tmpl dS).details[i]?
          = some ⟨i, "N/A", DetailStatus.failed, some "No phone number"⟩ := by
  have hne : rowEligible pc row = false := by
    unfold rowEligible
    rcases h with h | h | ⟨d, h⟩ <;> rw [h] <;> simp [truthyV, isDateV]
  have hstep := stepRow_ineligible cI o pc tmpl total i row hne
  refine ⟨hstep, ?_⟩
  intro data dS hdata
  show (sendLoop cI o pc tmpl dS data.length 0 data).details[i]?
    = some ⟨i, "N/A", DetailStatus.failed, some "No phone number"⟩
  rw [sendLoop_details, List.getElem?_map, List.getElem?_enumFrom, hdata]
  have hstep' := stepRow_ineligible cI o pc tmpl data.length i row hne
  simp [hstep']

/-- Witness for C9 at a concrete date-valued destination cell. -/
theorem ineligible_row_outcome_witness :
    stepRow true (fun _ => none) "Phone" "hi" 1 0
        [("Phone", CellValue.date "1/1/2020")]
      = (⟨0, "N/A", DetailStatus.failed, some "No phone number"⟩, false,
         [Ev.progress ⟨1, 1, "N/A", ProgressStatus.failed,
           some "No phone number"⟩])
    ∧ (sendMessages true (fun _ => none)
        [[("Phone", CellValue.date "1/1/2020")]] "Phone" "hi" 0).details[0]?
      = some ⟨0, "N/A", DetailStatus.failed, some "No phone number"⟩ := by
  have h := ineligible_row_outcome true (fun _ => none) "Phone" "hi" 1 0
    [("Phone", CellValue.date "1/1/2020")]
    (Or.inr (Or.inr ⟨"1/1/2020", by decide⟩))
  exact ⟨h.1, h.2 [[("Phone", CellValue.date "1/1/2020")]] 0 (by decide)⟩

/-- **C10**: a destination cell holding the number `0` or the empty
string is *present* in the row, yet the truthiness test
`if (!phone || ...)` classifies the row as ineligible, producing the
same `"No phone number"` outcome with identifier `"N/A"` and making no
transport call. -/
theorem falsy_present_value_ineligible (cI : Bool) (o : Nat → Option String)
    (pc tmpl : String) (total i : Nat) (row : Row)
    (h : lookupRow row pc = some (CellValue.num 0)
      ∨ lookupRow row pc = some (CellValue.text "")) :
    (lookupRow row pc).isSome = true
    ∧ rowEligible pc row = false
    ∧ stepRow cI o pc tmpl total i row
      = (⟨i, "N/A", DetailStatus.failed, some "No phone number"⟩, false,
         [Ev.progress ⟨i + 1, total, "N/A", ProgressStatus.failed,
           some "No phone number"⟩]) := by
  have hne : rowEligible pc row = false := by
    unfold rowEligible
    rcases h with h | h <;> rw [h] <;> simp [truthyV]
  refine ⟨?_, hne, stepRow_ineligible cI o pc tmpl total i row hne⟩
  rcases h with h | h <;> rw [h] <;> rfl

/-- Witness for C10 at a concrete `0`-valued destination cell. -/
theorem falsy_present_value_ineligible_witness :
    (lookupRow [("Phone", CellValue.num 0)] "Phone").isSome = true
    ∧ rowEligible "Phone" [("Phone", CellValue.num 0)] = false
    ∧ stepRow true (fun _ => none) "Phone" "hi" 3 1
        [("Phone", CellValue.num 0)]
      = (⟨1, "N/A", DetailStatus.failed, some "No phone number"⟩, false,
         [Ev.progress ⟨2, 3, "N/A", ProgressStatus.failed,
           some "No phone number"⟩]) :=
  falsy_present_value_ineligible true (fun _ => none) "Phone" "hi" 3 1
    [("Phone", CellValue.num 0)] (Or.inl (by decide))

/-! ## Failure isolation and one-attempt-per-row -/

theorem stepRow_send_count (cI : Bool) (o : Nat → Option String)
    (pc t : String) (total i : Nat) (row : Row) :
    ((stepRow cI o pc t total i row).2.2).countP isSendEv
      = (if rowEligible pc row && cI then 1 else 0) := by
  cases he : rowEligible pc row with
  | false =>
    rw [stepRow_ineligible cI o pc t total i row he]
    rfl
  | true =>
    unfold rowEligible at he
    cases hl : lookupRow row pc with
    | none => rw [hl] at he; exact absurd he (by simp)
    | some pv =>
      rw [hl] at he
      have ht : (truthyV pv && !isDateV pv) = true := he
      cases cI with
      | false => rw [stepRow_eligible_noclient o pc t total i row pv hl ht]; rfl
      | true =>
        cases ho : o i with
        | none =>
          rw [stepRow_eligible_success o pc t total i row pv hl ht ho]; rfl
        | some e =>
          rw [stepRow_eligible_sendfail o pc t total i row pv e hl ht ho]; rfl

theorem countP_flatMap_comm {α β : Type} (l : List α) (f : α → List β)
    (p : β → Bool) :
    (l.flatMap f).countP p = (l.map (fun a => (f a).countP p)).sum := by
  induction l with
  | nil => rfl
  | cons a l ih => simp [List.countP_append, ih]

theorem sum_map_ite_eq_countP {α : Type} (l : List α) (q : α → Bool) :
    (l.map (fun a => if q a then 1 else 0)).sum = l.countP q := by
  induction l with
  | nil => rfl
  | cons a l ih =>
    cases h : q a <;> simp [List.countP_cons, h, ih] <;> omega

/-- **C7**: no transport failure propagates out of `sendMessages`: a
failed send is recorded as data (a failed outcome carrying the
transport's error text), every row still gets exactly one outcome
(computed from that row and its own transport answer alone, so later rows
are unaffected by earlier failures), and each eligible row triggers
exactly one transport call — no retry — whatever the oracle answers. -/
theorem sendMessages_failure_isolation (cI : Bool) (o : Nat → Option String)
    (data : List Row) (pc tmpl : String) (dS : Nat) :
    (sendMessages cI o data pc tmpl dS).details.length = data.length
    ∧ (sendMessages cI o data pc tmpl dS).details
        = (List.enumFrom 0 data).map
            (fun p => (stepRow cI o pc tmpl data.length p.1 p.2).1)
    ∧ (sendMessagesTrace cI o data pc tmpl dS).countP isSendEv
        = (List.enumFrom 0 data).countP (fun p => rowEligible pc p.2 && cI)
    ∧ ∀ (i : Nat) (row : Row) (pv : CellValue) (e : String),
        lookupRow row pc = some pv → (truthyV pv && !isDateV pv) = true →
        o i = some e → cI = true →
        (stepRow cI o pc tmpl data.length i row).1
          = ⟨i, cellToString pv, DetailStatus.failed, some e⟩
          ∧ (stepRow cI o pc tmpl data.length i row).2.1 = false := by
  refine ⟨?_, ?_, ?_, ?_⟩
  · show (sendLoop cI o pc tmpl dS data.length 0 data).details.length
        = data.length
    rw [sendLoop_details]
    simp [List.enumFrom_length]
  · exact sendLoop_details cI o pc tmpl dS data.length 0 data
  · show ((sendLoop cI o pc tmpl dS data.length 0 data).events).countP isSendEv
        = (List.enumFrom 0 data).countP (fun p => rowEligible pc p.2 && cI)
    rw [sendLoop_events, countP_flatMap_comm]
    have hstep : ∀ p : Nat × Row,
        (((stepRow cI o pc tmpl data.length p.1 p.2).2.2 ++
          (if rowEligible pc p.2 ∧ p.1 < data.length - 1
           then [Ev.delay dS] else []))).countP isSendEv
        = (if (fun q : Nat × Row => rowEligible pc q.2 && cI) p
           then 1 else 0) := by
      intro p
      rw [List.countP_append, stepRow_send_count]
      have hdel : ((if rowEligible pc p.2 ∧ p.1 < data.length - 1
          then [Ev.delay dS] else []) : List Ev).countP isSendEv = 0 := by
        by_cases hc : rowEligible pc p.2 ∧ p.1 < data.length - 1
        · simp [hc, isSendEv, List.countP_cons]
        · simp [hc]
      rw [hdel]
      simp
    simp only [hstep]
    exact sum_map_ite_eq_countP (List.enumFrom 0 data)
      (fun p => rowEligible pc p.2 && cI)
  · intro i row pv e hl ht ho hc
    subst hc
    rw [stepRow_eligible_sendfail o pc tmpl data.length i row pv e hl ht ho]
    exact ⟨rfl, rfl⟩

/-- Witness for C7: with a transport that rejects row 0 (error
`"boom"`) and accepts row 1, row 0 is recorded as failed data, row 1 is
still attempted and succeeds, both transport calls happen. -/
theorem sendMessages_failure_isolation_witness :
    ((sendMessages true (fun i => if i = 0 then some "boom" else none)
        [[("P", CellValue.text "1")], [("P", CellValue.text "2")]]
        "P" "m" 1).details.length = 2)
    ∧ (stepRow true (fun i => if i = 0 then some "boom" else none)
        "P" "m" 2 0 [("P", CellValue.text "1")]).1
      = ⟨0, "1", DetailStatus.failed, some "boom"⟩
    ∧ (sendMessagesTrace true (fun i => if i = 0 then some "boom" else none)
        [[("P", CellValue.text "1")], [("P", CellValue.text "2")]]
        "P" "m" 1).countP isSendEv = 2 := by
  have h := sendMessages_failure_isolation true
    (fun i => if i = 0 then some "boom" else none)
    [[("P", CellValue.text "1")], [("P", CellValue.text "2")]] "P" "m" 1
  refine ⟨?_, ?_, ?_⟩
  · rw [h.1]; rfl
  · exact (h.2.2.2 0 [("P", CellValue.text "1")] (CellValue.text "1") "boom"
      (by decide) (by decide) (by decide) rfl).1
  · rw [h.2.2.1]; decide

/-! ## Progress-notification ordering -/

/-- The progress notifications one row emits, by case: ineligible rows
emit a single failed notification; eligible rows emit `sending` first
and then exactly one terminal notification (success, transport failure,
or the caught client-not-initialized failure). -/
def stepProgress (cI : Bool) (o : Nat → Option String) (pc : String)
    (total i : Nat) (row : Row) : List ProgressData :=
  match lookupRow row pc with
  | none =>
    [⟨i + 1, total, "N/A", ProgressStatus.failed, some "No phone number"⟩]
  | some pv =>
    if truthyV pv && !isDateV pv then
      ⟨i + 1, total, cellToString pv, ProgressStatus.sending, none⟩ ::
      (if cI then
        match o i with
        | none =>
          [⟨i + 1, total, cellToString pv, ProgressStatus.success, none⟩]
        | some e =>
          [⟨i + 1, total, cellToString pv, ProgressStatus.failed, some e⟩]
      else
        [⟨i + 1, total, cellToString pv, ProgressStatus.failed,
          some "WhatsApp client not initialized"⟩])
    else
      [⟨i + 1, total, "N/A", ProgressStatus.failed, some "No phone number"⟩]

theorem stepRow_progress (cI : Bool) (o : Nat → Option String)
    (pc t : String) (total i : Nat) (row : Row) :
    ((stepRow cI o pc t total i row).2.2).filterMap progressOf
      = stepProgress cI o pc total i row := by
  cases he : rowEligible pc row with
  | false =>
    rw [stepRow_ineligible cI o pc t total i row he]
    unfold rowEligible at he
    unfold stepProgress
    cases hl : lookupRow row pc with
    | none => rfl
    | some pv =>
      rw [hl] at he
      have h' : (truthyV pv && !isDateV pv) = false := he
      simp [h', progressOf]
  | true =>
    unfold rowEligible at he
    cases hl : lookupRow row pc with
    | none => rw [hl] at he; exact absurd he (by simp)
    | some pv =>
      rw [hl] at he
      have ht : (truthyV pv && !isDateV pv) = true := he
      unfold stepProgress
      rw [hl]
      cases cI with
      | false =>
        rw [stepRow_eligible_noclient o pc t total i row pv hl ht]
        simp [ht, progressOf]
      | true =>
        cases ho : o i with
        | none =>
          rw [stepRow_eligible_success o pc t total i row pv hl ht ho]
          simp [ht, ho, progressOf]
        | some e =>
          rw [stepRow_eligible_sendfail o pc t total i row pv e hl ht ho]
          simp [ht, ho, progressOf]

theorem filterMap_flatMap_comm {α β γ : Type} (l : List α) (f : α → List β)
    (g : β → Option γ) :
    (l.flatMap f).filterMap g = l.flatMap (fun a => (f a).filterMap g) := by
  induction l with
  | nil => rfl
  | cons a l ih => simp [ih]

/-- **C8**: (i) row outcomes are accumulated in strictly increasing
row-index order with no gaps or duplicates (their indices are exactly
`0..n-1`); (ii) the run's progress notifications are exactly the
concatenation, in row order, of each row's own notification block, so
every notification of row `i` precedes every notification of row `i+1`;
(iii) each block is either a single failed notification (ineligible row)
or `sending` followed by exactly one terminal success/failed
notification; (iv) every notification in row `i`'s block carries
`current = i+1`. -/
theorem sendMessages_ordering (cI : Bool) (o : Nat → Option String)
    (data : List Row) (pc tmpl : String) (dS : Nat) :
    (sendMessages cI o data pc tmpl dS).details.map Detail.index
        = List.range data.length
    ∧ (sendMessagesTrace cI o data pc tmpl dS).filterMap progressOf
        = (List.enumFrom 0 data).flatMap
            (fun p => stepProgress cI o pc data.length p.1 p.2)
    ∧ (∀ (i : Nat) (row : Row),
        (stepProgress cI o pc data.length i row).map ProgressData.status
            = [ProgressStatus.failed]
        ∨ (stepProgress cI o pc data.length i row).map ProgressData.status
            = [ProgressStatus.sending, ProgressStatus.success]
        ∨ (stepProgress cI o pc data.length i row).map ProgressData.status
            = [ProgressStatus.sending, ProgressStatus.failed])
    ∧ (∀ (i : Nat) (row : Row),
        ((stepProgress cI o pc data.length i row).all
          (fun q => q.current == i + 1)) = true) := by
  refine ⟨(sendMessages_count_invariant cI o data pc tmpl dS).2.2.2, ?_, ?_, ?_⟩
  · show ((sendLoop cI o pc tmpl dS data.length 0 data).events).filterMap
        progressOf = _
    rw [sendLoop_events, filterMap_flatMap_comm]
    have hstep : ∀ p : Nat × Row,
        (((stepRow cI o pc tmpl data.length p.1 p.2).2.2 ++
          (if rowEligible pc p.2 ∧ p.1 < data.length - 1
           then [Ev.delay dS] else []))).filterMap progressOf
        = stepProgress cI o pc data.length p.1 p.2 := by
      intro p
      rw [List.filterMap_append, stepRow_progress]
      have hdel : ((if rowEligible pc p.2 ∧ p.1 < data.length - 1
          then [Ev.delay dS] else []) : List Ev).filterMap progressOf = [] := by
        by_cases hc : rowEligible pc p.2 ∧ p.1 < data.length - 1
        · simp [hc, progressOf]
        · simp [hc]
      rw [hdel, List.append_nil]
    simp only [hstep]
  · intro i row
    unfold stepProgress
    cases lookupRow row pc with
    | none => exact Or.inl rfl
    | some pv =>
      cases ht : (truthyV pv && !isDateV pv) with
      | false => simp [ht]
      | true =>
        cases cI with
        | false => simp [ht]
        | true =>
          cases ho : o i with
          | none => simp [ht, ho]
          | some e => simp [ht, ho]
  · intro i row
    unfold stepProgress
    cases lookupRow row pc with
    | none => simp
    | some pv =>
      cases ht : (truthyV pv && !isDateV pv) with
      | false => simp [ht]
      | true =>
        cases cI with
        | false => simp [ht]
        | true =>
          cases ho : o i with
          | none => simp [ht, ho]
          | some e => simp [ht, ho]

/-! ## Simultaneous substitution semantics for the template renderer

A template is viewed as a token list: literal characters and placeholder
tokens `{name}`.  `simulSubst` is the specification's simultaneous
whole-token substitution: each placeholder whose name is a key of the row
is replaced (at every occurrence) by that key's display text, every other
placeholder is kept verbatim, and no replacement text is re-scanned. -/

/-- A template token: a literal character or a placeholder `{name}`. -/
inductive Tok where
  | lit (c : Char)
  | ph (name : List Char)
deriving DecidableEq, Repr

/-- The template text a token list denotes. -/
def renderToks : List Tok → List Char
  | [] => []
  | Tok.lit c :: ts => c :: renderToks ts
  | Tok.ph n :: ts => '{' :: (n ++ '}' :: renderToks ts)

/-- No brace characters. -/
def braceFree (s : List Char) : Bool :=
  s.all (fun c => !(c = '{') && !(c = '}'))

/-- Well-formedness of a token: a literal is not `{`, a placeholder name
is brace-free. -/
def tokOK : Tok → Bool
  | Tok.lit c => !(c = '{')
  | Tok.ph n => braceFree n

/-- The one-token result of simultaneous substitution. -/
def substTok (row : Row) : Tok → List Char
  | Tok.lit c => [c]
  | Tok.ph n =>
    match lookupRow row (String.mk n) with
    | some v => displayChars v
    | none => '{' :: (n ++ ['}'])

/-- Simultaneous substitution of a row into a template. -/
def simulSubst (row : Row) (toks : List Tok) : List Char :=
  (toks.map (substTok row)).flatten

/-- Effect of one sequential `split/join` pass for key `k` on the token
list: placeholders named `k` become the literal characters of `v`. -/
def passTok (k v : List Char) : List Tok → List Tok
  | [] => []
  | Tok.lit c :: ts => Tok.lit c :: passTok k v ts
  | Tok.ph n :: ts =>
    if n = k then v.map Tok.lit ++ passTok k v ts
    else Tok.ph n :: passTok k v ts

theorem renderToks_append (ts1 ts2 : List Tok) :
    renderToks (ts1 ++ ts2) = renderToks ts1 ++ renderToks ts2 := by
  induction ts1 with
  | nil => rfl
  | cons t ts ih =>
    cases t with
    | lit c => simp [renderToks, ih]
    | ph n => simp [renderToks, ih]

theorem renderToks_lits (v : List Char) :
    renderToks (v.map Tok.lit) = v := by
  induction v with
  | nil => rfl
  | cons c cs ih => simp [renderToks, ih]

theorem isPref_name_neq : ∀ (k n rest : List Char),
    braceFree k = true → braceFree n = true → k ≠ n →
    isPref (k ++ ['}']) (n ++ '}' :: rest) = false := by
  intro k
  induction k with
  | nil =>
    intro n rest _ hn hne
    cases n with
    | nil => exact absurd rfl hne
    | cons b n' =>
      have hb : ¬(b = '}') := by
        simp [braceFree] at hn
        exact fun h => hn.1.2 h
      have hb' : ¬('}' = b) := fun h => hb h.symm
      simp [isPref, hb']
  | cons a k' ih =>
    intro n rest hk hn hne
    have ha : ¬(a = '{') ∧ ¬(a = '}') := by
      simp [braceFree] at hk
      exact hk.1
    cases n with
    | nil =>
      simp [isPref, ha.2]
    | cons b n' =>
      by_cases hab : a = b
      · subst hab
        have hk' : braceFree k' = true := by
          simp [braceFree] at hk ⊢
          exact hk.2
        have hn' : braceFree n' = true := by
          simp [braceFree] at hn ⊢
          exact hn.2
        have hne' : k' ≠ n' := by
          intro h
          exact hne (by rw [h])
        simp [isPref, ih n' rest hk' hn' hne']
      · simp [isPref, hab]

theorem replaceAll_append_nolbrace (p' v : List Char) :
    ∀ (s1 s2 : List Char), (s1.all (fun c => !(c = '{'))) = true →
      replaceAll (s1 ++ s2) ('{' :: p') v = s1 ++ replaceAll s2 ('{' :: p') v := by
  intro s1
  induction s1 with
  | nil => intro s2 _; rfl
  | cons c s1' ih =>
    intro s2 h1
    simp only [List.all_cons, Bool.and_eq_true] at h1
    have hc : ¬('{' = c) := by
      intro h
      rw [← h] at h1
      simp at h1
    have hpref : isPref ('{' :: p') (c :: (s1' ++ s2)) = false := by
      simp [isPref, hc]
    rw [List.cons_append, replaceAll_cons_neg c _ v hpref]
    rw [ih s2 h1.2]
    simp

theorem replaceAll_render (k v : List Char) (hk : braceFree k = true) :
    ∀ toks : List Tok, (∀ t ∈ toks, tokOK t = true) →
      replaceAll (renderToks toks) ('{' :: (k ++ ['}'])) v
        = renderToks (passTok k v toks) := by
  intro toks
  induction toks with
  | nil => intro _; rfl
  | cons t ts ih =>
    intro htoks
    have hts : ∀ t ∈ ts, tokOK t = true :=
      fun t ht => htoks t (List.mem_cons_of_mem _ ht)
    have hthead : tokOK t = true := htoks t (List.mem_cons_self _ _)
    cases t with
    | lit c =>
      have hc : ¬('{' = c) := by
        simp [tokOK] at hthead
        exact fun h => hthead h.symm
      have hpref : isPref ('{' :: (k ++ ['}'])) (c :: renderToks ts) = false := by
        simp [isPref, hc]
      show replaceAll (c :: renderToks ts) ('{' :: (k ++ ['}'])) v
        = renderToks (passTok k v (Tok.lit c :: ts))
      rw [replaceAll_cons_neg c _ v hpref, ih hts]
      rfl
    | ph n =>
      by_cases hnk : n = k
      · subst hnk
        have hshape : renderToks (Tok.ph n :: ts)
            = ('{' :: (n ++ ['}'])) ++ renderToks ts := by
          simp [renderToks]
        rw [hshape, replaceAll_pref (renderToks ts) v (by simp), ih hts]
        simp [passTok, renderToks_append, renderToks_lits]
      · have hn : braceFree n = true := by simpa [tokOK] using hthead
        have hpref : isPref ('{' :: (k ++ ['}']))
            ('{' :: (n ++ '}' :: renderToks ts)) = false := by
          have := isPref_name_neq k n (renderToks ts) hk hn
            (fun h => hnk h.symm)
          simp [isPref, this]
        show replaceAll ('{' :: (n ++ '}' :: renderToks ts))
            ('{' :: (k ++ ['}'])) v = renderToks (passTok k v (Tok.ph n :: ts))
        rw [replaceAll_cons_neg '{' _ v hpref]
        have hsplit : n ++ '}' :: renderToks ts
            = (n ++ ['}']) ++ renderToks ts := by simp
        have hall : ((n ++ ['}']).all (fun c => !(c = '{'))) = true := by
          simp [braceFree] at hn
          simp [List.all_append]
          intro c hc
          exact (hn c hc).1
        rw [hsplit,
          replaceAll_append_nolbrace (k ++ ['}']) v (n ++ ['}'])
            (renderToks ts) hall,
          ih hts]
        simp [passTok, hnk, renderToks]

theorem passTok_OK (k v : List Char)
    (hv : (v.all (fun c => !(c = '{'))) = true) :
    ∀ toks : List Tok, (∀ t ∈ toks, tokOK t = true) →
      ∀ t ∈ passTok k v toks, tokOK t = true := by
  intro toks
  induction toks with
  | nil => intro _ t ht; simp [passTok] at ht
  | cons t0 ts ih =>
    intro htoks t ht
    have hts : ∀ t ∈ ts, tokOK t = true :=
      fun t ht => htoks t (List.mem_cons_of_mem _ ht)
    cases t0 with
    | lit c =>
      simp only [passTok] at ht
      rcases List.mem_cons.mp ht with rfl | hmem
      · exact htoks _ (List.mem_cons_self _ _)
      · exact ih hts t hmem
    | ph n =>
      simp only [passTok] at ht
      by_cases hnk : n = k
      · rw [if_pos hnk] at ht
        rcases List.mem_append.mp ht with hmem | hmem
        · rcases List.mem_map.mp hmem with ⟨c, hc, rfl⟩
          have hc' : ¬(c = '{') := by
            simp at hv
            exact hv c hc
          simpa [tokOK] using hc'
        · exact ih hts t hmem
      · rw [if_neg hnk] at ht
        rcases List.mem_cons.mp ht with rfl | hmem
        · exact htoks _ (List.mem_cons_self _ _)
        · exact ih hts t hmem

theorem flatten_map_singleton (v : List Char) :
    ((v.map (fun c => [c])).flatten) = v := by
  induction v with
  | nil => rfl
  | cons c cs ih => simp [ih]

theorem simulSubst_nil_row : ∀ toks : List Tok,
    simulSubst [] toks = renderToks toks := by
  intro toks
  induction toks with
  | nil => rfl
  | cons t ts ih =>
    cases t with
    | lit c => simp [simulSubst, substTok, renderToks] at ih ⊢; exact ih
    | ph n =>
      simp only [simulSubst, List.map_cons, List.flatten_cons] at ih ⊢
      rw [ih]
      simp [substTok, lookupRow, renderToks]

theorem simulSubst_cons_row (key : String) (val : CellValue) (row' : Row) :
    ∀ toks : List Tok,
      simulSubst ((key, val) :: row') toks
        = simulSubst row' (passTok key.data (displayChars val) toks) := by
  intro toks
  induction toks with
  | nil => rfl
  | cons t ts ih =>
    cases t with
    | lit c =>
      simp only [simulSubst, List.map_cons, List.flatten_cons, passTok] at ih ⊢
      rw [ih]
      rfl
    | ph n =>
      by_cases hnk : n = key.data
      · have hkey : key = String.mk n := by
          cases key with
          | mk d => rw [hnk]
        simp only [simulSubst, List.map_cons, List.flatten_cons, passTok,
          if_pos hnk] at ih ⊢
        rw [List.map_append, List.flatten_append]
        have hhead : substTok ((key, val) :: row') (Tok.ph n)
            = displayChars val := by
          simp [substTok, lookupRow, ← hkey]
        have hmapped : ((displayChars val).map Tok.lit).map (substTok row')
            = (displayChars val).map (fun c => [c]) := by
          rw [List.map_map]
          rfl
        rw [hhead, hmapped, flatten_map_singleton, ih]
      · have hkey : ¬(key = String.mk n) := by
          intro h
          apply hnk
          rw [h]
        simp only [simulSubst, List.map_cons, List.flatten_cons, passTok,
          if_neg hnk] at ih ⊢
        have hhead : substTok ((key, val) :: row') (Tok.ph n)
            = substTok row' (Tok.ph n) := by
          simp [substTok, lookupRow, hkey]
        rw [hhead, ih]

theorem formatMessage_data_cons (t : List Char) (kv : String × CellValue)
    (row : Row) :
    (formatMessage (String.mk t) (kv :: row)).data
      = (formatMessage
          (String.mk (replaceAll t ('{' :: kv.1.data ++ ['}'])
            (displayChars kv.2))) row).data := rfl

theorem formatMessage_eq_simulSubst :
    ∀ (row : Row) (toks : List Tok),
      (∀ t ∈ toks, tokOK t = true) →
      (∀ kv ∈ row, braceFree kv.1.data = true) →
      (∀ kv ∈ row, braceFree (displayChars kv.2) = true) →
      (formatMessage (String.mk (renderToks toks)) row).data
        = simulSubst row toks := by
  intro row
  induction row with
  | nil =>
    intro toks _ _ _
    exact (simulSubst_nil_row toks).symm
  | cons kv row' ih =>
    intro toks htoks hkeys hvals
    obtain ⟨key, val⟩ := kv
    have hk : braceFree key.data = true := hkeys _ (List.mem_cons_self _ _)
    have hv : braceFree (displayChars val) = true :=
      hvals _ (List.mem_cons_self _ _)
    have hv' : ((displayChars val).all (fun c => !(c = '{'))) = true := by
      simp [braceFree] at hv
      simp
      intro c hc
      exact (hv c hc).1
    have hpass := replaceAll_render key.data (displayChars val) hk toks htoks
    rw [formatMessage_data_cons]
    rw [show replaceAll (renderToks toks) ('{' :: key.data ++ ['}'])
        (displayChars val)
      = renderToks (passTok key.data (displayChars val) toks) from hpass]
    rw [ih (passTok key.data (displayChars val) toks)
      (passTok_OK key.data (displayChars val) hv' toks htoks)
      (fun kv h => hkeys kv (List.mem_cons_of_mem _ h))
      (fun kv h => hvals kv (List.mem_cons_of_mem _ h))]
    exact (simulSubst_cons_row key val row' toks).symm

/-- **C4 (amended)**: for every template given as well-formed tokens
(literal characters other than `{`, placeholders with brace-free names)
and every row whose keys and display texts are brace-free, `formatMessage`
computes exactly the simultaneous whole-token substitution: every
occurrence of a placeholder whose name is a key of the row is replaced by
that key's display text, every other placeholder is left untouched as
literal text, and no error is raised (the function is total).  Without
the brace-freeness conditions the sequential per-key split/join passes
can consume or rewrite other placeholders (see the counterexample). -/
theorem formatMessage_simultaneous (toks : List Tok) (row : Row)
    (htoks : ∀ t ∈ toks, tokOK t = true)
    (hkeys : ∀ kv ∈ row, braceFree kv.1.data = true)
    (hvals : ∀ kv ∈ row, braceFree (displayChars kv.2) = true) :
    (formatMessage (String.mk (renderToks toks)) row).data
      = simulSubst row toks :=
  formatMessage_eq_simulSubst row toks htoks hkeys hvals

/-- Witness for C4 at the spec's own example: template
`"Hi {Name}, bal {Balance}"`-style with a present and an absent key. -/
theorem formatMessage_simultaneous_witness :
    (∀ t ∈ ([Tok.ph "Name".data, Tok.lit '!', Tok.ph "Zip".data] : List Tok),
        tokOK t = true)
    ∧ (∀ kv ∈ ([("Name", CellValue.text "Ann")] : Row),
        braceFree kv.1.data = true)
    ∧ (formatMessage
        (String.mk (renderToks
          [Tok.ph "Name".data, Tok.lit '!', Tok.ph "Zip".data]))
        [("Name", CellValue.text "Ann")]).data
      = simulSubst [("Name", CellValue.text "Ann")]
          [Tok.ph "Name".data, Tok.lit '!', Tok.ph "Zip".data] :=
  ⟨by decide, by decide,
    formatMessage_simultaneous
      [Tok.ph "Name".data, Tok.lit '!', Tok.ph "Zip".data]
      [("Name", CellValue.text "Ann")]
      (by decide) (by decide) (by decide)⟩

/-! ## Order independence of substitution -/

theorem lookupRow_perm :
    ∀ {row₁ row₂ : Row}, row₁.Perm row₂ →
      (row₁.map Prod.fst).Nodup →
      ∀ k, lookupRow row₁ k = lookupRow row₂ k := by
  intro row₁ row₂ hperm
  induction hperm with
  | nil => intro _ _; rfl
  | cons x p ih =>
    intro hnd k
    obtain ⟨xk, xv⟩ := x
    rw [List.map_cons] at hnd
    have hnd' := hnd.of_cons
    by_cases hx : xk = k
    · simp [lookupRow, hx]
    · simp [lookupRow, hx, ih hnd' k]
  | swap x y l =>
    intro hnd k
    obtain ⟨xk, xv⟩ := x
    obtain ⟨yk, yv⟩ := y
    have hyx : ¬(yk = xk) := by
      simp [List.nodup_cons] at hnd
      intro h
      exact hnd.1.1 h
    by_cases h1 : yk = k
    · subst h1
      have h2 : ¬(xk = yk) := fun h => hyx h.symm
      simp [lookupRow, h2]
    · by_cases h2 : xk = k
      · simp [lookupRow, h1, h2]
      · simp [lookupRow, h1, h2]
  | trans p q ih1 ih2 =>
    intro hnd k
    have hnd2 : _ := ((p.map Prod.fst).nodup_iff).mp hnd
    rw [ih1 hnd k, ih2 hnd2 k]

theorem simulSubst_congr (row₁ row₂ : Row)
    (h : ∀ k, lookupRow row₁ k = lookupRow row₂ k) :
    ∀ toks : List Tok, simulSubst row₁ toks = simulSubst row₂ toks := by
  intro toks
  induction toks with
  | nil => rfl
  | cons t ts ih =>
    simp only [simulSubst, List.map_cons, List.flatten_cons] at ih ⊢
    rw [ih]
    cases t with
    | lit c => rfl
    | ph n => simp [substTok, h (String.mk n)]

/-- **C5 (amended)**: when every key and every display text of the row is
brace-free and the template is given as well-formed tokens, the output of
`formatMessage` is independent of the row's insertion order (for rows
with distinct keys), because it equals the simultaneous substitution in
which no replacement text is re-scanned.  Without those conditions the
sequential passes re-scan earlier replacement text (see the
counterexample). -/
theorem formatMessage_order_independent (toks : List Tok) (row₁ row₂ : Row)
    (htoks : ∀ t ∈ toks, tokOK t = true)
    (hkeys : ∀ kv ∈ row₁, braceFree kv.1.data = true)
    (hvals : ∀ kv ∈ row₁, braceFree (displayChars kv.2) = true)
    (hperm : row₁.Perm row₂)
    (hnd : (row₁.map Prod.fst).Nodup) :
    formatMessage (String.mk (renderToks toks)) row₁
      = formatMessage (String.mk (renderToks toks)) row₂ := by
  have hkeys₂ : ∀ kv ∈ row₂, braceFree kv.1.data = true :=
    fun kv hm => hkeys kv (hperm.mem_iff.mpr hm)
  have hvals₂ : ∀ kv ∈ row₂, braceFree (displayChars kv.2) = true :=
    fun kv hm => hvals kv (hperm.mem_iff.mpr hm)
  have h1 := formatMessage_eq_simulSubst row₁ toks htoks hkeys hvals
  have h2 := formatMessage_eq_simulSubst row₂ toks htoks hkeys₂ hvals₂
  have hd : (formatMessage (String.mk (renderToks toks)) row₁).data
      = (formatMessage (String.mk (renderToks toks)) row₂).data := by
    rw [h1, h2]
    exact simulSubst_congr row₁ row₂ (lookupRow_perm hperm hnd) toks
  calc formatMessage (String.mk (renderToks toks)) row₁
      = String.mk (formatMessage (String.mk (renderToks toks)) row₁).data :=
        rfl
    _ = String.mk (formatMessage (String.mk (renderToks toks)) row₂).data :=
        congrArg String.mk hd
    _ = formatMessage (String.mk (renderToks toks)) row₂ := rfl

/-- Witness for C5: swapping two distinct brace-free rows leaves the
rendered output unchanged. -/
theorem formatMessage_order_independent_witness :
    ((([("A", CellValue.text "1"), ("B", CellValue.text "2")] : Row).map
        Prod.fst).Nodup)
    ∧ formatMessage
        (String.mk (renderToks [Tok.ph "A".data, Tok.lit '-', Tok.ph "B".data]))
        [("A", CellValue.text "1"), ("B", CellValue.text "2")]
      = formatMessage
        (String.mk (renderToks [Tok.ph "A".data, Tok.lit '-', Tok.ph "B".data]))
        [("B", CellValue.text "2"), ("A", CellValue.text "1")] :=
  ⟨by decide,
    formatMessage_order_independent
      [Tok.ph "A".data, Tok.lit '-', Tok.ph "B".data]
      [("A", CellValue.text "1"), ("B", CellValue.text "2")]
      [("B", CellValue.text "2"), ("A", CellValue.text "1")]
      (by decide) (by decide) (by decide)
      (List.Perm.swap _ _ _) (by decide)⟩
